import Mathlib

/-!
# Verification of the Mondaq Analytics dashboard pipeline

Shallow embedding of the data ingestion, join, filter and aggregation
pipeline shared by `mondaq_dashboard_master.py` and
`mondaq_dashboard_app.py`.  Tables (pandas DataFrames) are embedded as a
list of column labels together with positional rows; cells are a sum type
covering the value kinds the pipeline manipulates (strings, integers,
parsed timestamps, and the null/NaN/NaT marker).
-/

namespace Mondaq

/-- A parsed timestamp (`pandas.Timestamp`), at the granularity the
dashboards use: calendar date plus hour of day. -/
structure Date where
  year : Int
  month : Nat
  day : Nat
  hour : Nat
deriving DecidableEq, Repr

/-- Linearisation used to compare timestamps chronologically
(lexicographic on year, month, day, hour for in-range field values). -/
def Date.key (d : Date) : Int :=
  (((d.year * 13 + (d.month : Int)) * 32 + (d.day : Int)) * 24 + (d.hour : Int))

/-- Boolean order on timestamps: `a` is at or before `b`. -/
def Date.le (a b : Date) : Bool := decide (a.key ≤ b.key)

/-- Boolean strict order on timestamps: `a` is strictly before `b`. -/
def Date.lt (a b : Date) : Bool := decide (a.key < b.key)

/-- A cell of a table: a string, an integer (read counts and the other
numeric columns), a parsed timestamp, or the missing marker
(NaN / NaT / None). -/
inductive Value where
  | vStr : String → Value
  | vInt : Int → Value
  | vDate : Date → Value
  | vNull : Value
deriving DecidableEq, Repr

/-- Numeric view of a cell, as used by the summing aggregations: pandas
`sum` skips missing values, which is the same as treating them as `0`;
non-numeric cells do not occur in the summed columns. -/
def Value.asInt : Value → Int
  | .vInt n => n
  | _ => 0

/-- A DataFrame: column labels plus positional rows (row `i`, column `j`
holds the cell of label `cols[j]`). -/
structure DataFrame where
  cols : List String
  rows : List (List Value)
deriving DecidableEq, Repr

/-- Cell of a positional row under a column label (first occurrence of the
label, as pandas label lookup does on unique labels).  A label that is
absent yields the missing marker; the pipeline only reads labels that are
present. -/
def getCell (cols : List String) (row : List Value) (c : String) : Value :=
  match cols.findIdx? (fun c2 => c2 == c) with
  | some i => row.getD i Value.vNull
  | none => Value.vNull

/-- The values of one column, top to bottom. -/
def colVals (df : DataFrame) (c : String) : List Value :=
  df.rows.map (fun r => getCell df.cols r c)

/-- Non-key columns of a matched right-hand row, in column order
(used by the left join to append author cells to an article row). -/
def nonkeyVals (cols : List String) (row : List Value) (key : String) : List Value :=
  ((cols.zip row).filter (fun p => !(p.1 == key))).map Prod.snd

/-- Right-hand rows whose key cell equals the key cell of a given
left-hand row. -/
def matchRows (leftCols : List String) (right : DataFrame) (key : String)
    (lrow : List Value) : List (List Value) :=
  right.rows.filter (fun rrow =>
    decide (getCell right.cols rrow key = getCell leftCols lrow key))

/-- The merged rows one left-hand row contributes to a left join: one row
per matching right-hand row, or a single null-padded row when no right
row carries the same key value. -/
def emitRows (leftCols : List String) (right : DataFrame) (key : String)
    (lrow : List Value) : List (List Value) :=
  let ms := matchRows leftCols right key lrow
  if ms.isEmpty then
    [lrow ++ List.replicate (right.cols.filter (fun c => !(c == key))).length Value.vNull]
  else ms.map (fun rrow => lrow ++ nonkeyVals right.cols rrow key)

/-- Left merge on a key with the suffix pair `_article` / `_author`
(pandas merge with how set to left): all left columns, collision labels
suffixed `_article`, then the non-key right columns, collision labels
suffixed `_author`; every left row is emitted through `emitRows`. -/
def mergeLeft (left right : DataFrame) (key : String) : DataFrame :=
  ⟨left.cols.map (fun c => if !(c == key) && right.cols.contains c then c ++ "_article" else c)
      ++ (right.cols.filter (fun c => !(c == key))).map
          (fun c => if left.cols.contains c then c ++ "_author" else c),
   left.rows.flatMap (emitRows left.cols right key)⟩

/-- The column renaming applied after the merge: `Reads_article` becomes
`Article Reads` and `Author Name_article` becomes `Author Name`; any
other label is kept. -/
def renameCanonical (c : String) : String :=
  if c == "Reads_article" then "Article Reads"
  else if c == "Author Name_article" then "Author Name"
  else c

/-- The Joiner: left join of the article table onto the author table on
`Author Id`, suffix disambiguation, then renaming to the canonical labels
(lines 28–29 of the master dashboard, 20–21 of the app dashboard). -/
def joiner (article author : DataFrame) : DataFrame :=
  let m := mergeLeft article author "Author Id"
  ⟨m.cols.map renameCanonical, m.rows⟩

/-- The declared article-table schema (spec §6; the trailing author-name
column would collide, so the article export carries the columns listed). -/
def articleSchema : List String :=
  ["Article Id", "Title", "Author Id", "Date", "Reads",
   "Historic Reads", "Profile Views", "Mondaq Tags"]

/-- The declared author-table schema: `Author Id`, the display name, and
the author-level read-count column whose collision with the article-level
`Reads` the rename step resolves (spec §6 declares the columns each table
includes, leaving supersets open; the canonical-label sentence of spec §3
requires the read-count collision). -/
def authorSchema : List String :=
  ["Author Id", "Author Name", "Reads"]

/-- The merged-view schema the Joiner produces over the declared input
schemas: the colliding read-count column is suffixed then renamed to the
canonical `Article Reads`, the author display name joins unsuffixed, the
author-level read count keeps its `_author` suffix. -/
def mergedSchema : List String :=
  ["Article Id", "Title", "Author Id", "Date", "Article Reads",
   "Historic Reads", "Profile Views", "Mondaq Tags", "Author Name", "Reads_author"]

/-! ## Loader: date parsing -/

/-- Coercing date conversion (pd.to_datetime with the coerce error mode)
on one cell: a string is run through the library date parsing routine and
an unparsable one becomes the missing marker; an already-parsed timestamp
passes through; anything else becomes the missing marker.  Total:
coercion never fails. -/
def parseCell (parse : String → Option Date) : Value → Value
  | .vStr s => match parse s with
    | some d => .vDate d
    | none => .vNull
  | .vDate d => .vDate d
  | _ => .vNull

/-- Strict date conversion (pd.to_datetime with the default raise error
mode, app dashboard line 22) on one cell: an unparsable string makes the
whole conversion fail.  A missing cell stays missing (NaN converts to NaT
without error); numeric epoch conversion is outside the value range of
the date columns and not modelled. -/
def parseCellStrict (parse : String → Option Date) : Value → Option Value
  | .vStr s => (parse s).map Value.vDate
  | .vDate d => some (.vDate d)
  | .vNull => some .vNull
  | .vInt _ => none

/-- Rewrite the cell at position `i` of a row through a fallible
function, failing when the rewrite fails. -/
def mapAtM (g : Value → Option Value) : Nat → List Value → Option (List Value)
  | _, [] => some []
  | 0, v :: vs => (g v).map (· :: vs)
  | i + 1, v :: vs => (mapAtM g i vs).map (v :: ·)

/-- In-place rewrite of one labelled column (`df[c] = f(df[c])`). -/
def mapCol (g : Value → Value) (df : DataFrame) (c : String) : DataFrame :=
  match df.cols.findIdx? (fun c2 => c2 == c) with
  | some i => ⟨df.cols, df.rows.map (fun r => r.mapIdx (fun j v => if j = i then g v else v))⟩
  | none => df

/-- Fallible in-place rewrite of one labelled column: the whole frame
fails as soon as one cell fails. -/
def mapColStrict (g : Value → Option Value) (df : DataFrame) (c : String) :
    Option DataFrame :=
  match df.cols.findIdx? (fun c2 => c2 == c) with
  | some i => (df.rows.mapM (mapAtM g i)).map (fun rs => ⟨df.cols, rs⟩)
  | none => some df

/-- The load_data function of the master dashboard (lines 16–31):
coerce-convert the reader `Last Access Date` and the article `Date`, then
join.  (Column label trimming happens upstream of the schemas used here.)
Total — a master load never fails on an unparsable date. -/
def masterLoadData (parse : String → Option Date)
    (reader article author : DataFrame) : DataFrame × DataFrame :=
  (mapCol (parseCell parse) reader "Last Access Date",
   joiner (mapCol (parseCell parse) article "Date") author)

/-- The load_data function of the app dashboard (lines 11–24): join
first, then strict-convert the merged `Date` column; an unparsable date
fails the load. -/
def appLoadData (parse : String → Option Date)
    (reader article author : DataFrame) : Option (DataFrame × DataFrame) :=
  (mapColStrict (parseCellStrict parse) (joiner article author) "Date").map
    (fun m => (reader, m))

/-! ## Filter Engine (master dashboard lines 41–44) -/

/-- Lower range bound on a cell: cell at or after the start timestamp,
with NaT semantics — a missing or non-date cell compares false against a
timestamp bound. -/
def dateGeB (v : Value) (s : Date) : Bool :=
  match v with
  | .vDate d => Date.le s d
  | _ => false

/-- Upper range bound on a cell: cell at or before the end timestamp,
same missing-value semantics. -/
def dateLeB (v : Value) (e : Date) : Bool :=
  match v with
  | .vDate d => Date.le d e
  | _ => false

/-- The filtered_articles view: merged rows whose `Date` lies in the
inclusive interval (master lines 41–42). -/
def filteredArticles (merged : DataFrame) (s e : Date) : DataFrame :=
  ⟨merged.cols, merged.rows.filter (fun r =>
    dateGeB (getCell merged.cols r "Date") s && dateLeB (getCell merged.cols r "Date") e)⟩

/-- The filtered_readers view: reader rows whose `Country` and
`Industry` are both members of the selected allowed sets (master lines
43–44); isin of an empty list is false everywhere. -/
def filteredReaders (reader : DataFrame) (countries industries : List Value) : DataFrame :=
  ⟨reader.cols, reader.rows.filter (fun r =>
    countries.contains (getCell reader.cols r "Country")
      && industries.contains (getCell reader.cols r "Industry"))⟩

/-! ## Aggregator -/

/-- Sum of the second components of the pairs carrying a given key
(one group's sum in a group-by). -/
def groupTotal {K : Type} [DecidableEq K] (xs : List (K × Int)) (k : K) : Int :=
  ((xs.filter (fun p => decide (p.1 = k))).map Prod.snd).sum

/-- Insert a key into an ascending duplicate-free key list, keeping it
ascending and duplicate-free. -/
def insertKey {K : Type} [LinearOrder K] (k : K) : List K → List K
  | [] => [k]
  | k2 :: ks =>
    if k < k2 then k :: k2 :: ks
    else if k = k2 then k2 :: ks
    else k2 :: insertKey k ks

/-- The ascending duplicate-free list of keys occurring in a list
(pandas group-by key order: sorted ascending, one group per distinct
key). -/
def sortedKeys {K : Type} [LinearOrder K] : List K → List K
  | [] => []
  | k :: ks => insertKey k (sortedKeys ks)

/-- Calendar-month bucket of a timestamp (the monthly to_period
accessor), linearised as a month count. -/
def monthKey (d : Date) : Int := d.year * 12 + (d.month : Int) - 1

/-- First instant of a month bucket (the to_timestamp accessor). -/
def monthStart (k : Int) : Date :=
  ⟨k / 12, (k % 12).toNat + 1, 1, 0⟩

/-- The (month, read count) pair one row contributes to the monthly
grouping, or nothing when its `Date` is missing (group-by drops null
keys); the numeric column is `Article Reads`. -/
def monthPairOfRow (cols : List String) (r : List Value) : Option (Int × Int) :=
  match getCell cols r "Date" with
  | .vDate d => some (monthKey d, (getCell cols r "Article Reads").asInt)
  | _ => none

/-- The (month, read count) pairs of the rows that enter the monthly
grouping. -/
def monthPairs (df : DataFrame) : List (Int × Int) :=
  df.rows.filterMap (monthPairOfRow df.cols)

/-- The monthly time-bucketed sum as a (month, total) series: group the
rows by calendar month of `Date`, sum `Article Reads`, one entry per
month present, ascending. -/
def monthlySeries (df : DataFrame) : List (Int × Int) :=
  (sortedKeys ((monthPairs df).map Prod.fst)).map
    (fun k => (k, groupTotal (monthPairs df) k))

/-- The reads_over_time frame (master lines 85–86, app lines 49–50): the
monthly series reindexed as a two-column frame, the month rendered as its
first timestamp. -/
def readsOverTime (df : DataFrame) : DataFrame :=
  ⟨["Date", "Article Reads"],
   (monthlySeries df).map (fun p => [Value.vDate (monthStart p.1), Value.vInt p.2])⟩

/-- Distinct values of a list in first-occurrence order (the group keys;
the ascending key sort of pandas group-by is immaterial to every property
proved here, which are order-insensitive or key-indexed). -/
def firstOccDedup {K : Type} [DecidableEq K] : List K → List K
  | [] => []
  | k :: ks => if (firstOccDedup ks).contains k then firstOccDedup ks else k :: firstOccDedup ks

/-- Group-by sum of a numeric column under a key column, as (key, sum)
pairs: rows whose key cell is missing are dropped (group-by null-key
exclusion), one entry per distinct key. -/
def groupSumBy (df : DataFrame) (keyCol numCol : String) : List (Value × Int) :=
  let pairs := df.rows.filterMap (fun r =>
    match getCell df.cols r keyCol with
    | .vNull => none
    | k => some (k, (getCell df.cols r numCol).asInt))
  (firstOccDedup (pairs.map Prod.fst)).map (fun k => (k, groupTotal pairs k))

/-- The idxmax of a series of (key, value) pairs: the key of the first
maximal value; fails (a ValueError) on an empty series. -/
def idxmaxPairs : List (Value × Int) → Option Value
  | [] => none
  | p :: ps => some (ps.foldl (fun best q => if best.2 < q.2 then q else best) p).1

/-- KPI Top Author (master line 52): idxmax of the per-author
`Article Reads` sums over the filtered article view, invoked with no
emptiness guard. -/
def topAuthorKPI (filtered : DataFrame) : Option Value :=
  idxmaxPairs (groupSumBy filtered "Author Name" "Article Reads")

/-- KPI Top Article (master line 53): the `Title` cell of the first row
maximising `Article Reads` in the filtered article view, invoked with no
emptiness guard; fails on an empty view. -/
def topArticleKPI (filtered : DataFrame) : Option Value :=
  match filtered.rows with
  | [] => none
  | r :: rs => some (getCell filtered.cols
      (rs.foldl (fun best q =>
        if (getCell filtered.cols best "Article Reads").asInt
            < (getCell filtered.cols q "Article Reads").asInt then q else best) r)
      "Title")

/-! ## Engagement heatmap (master lines 149–153) -/

/-- Monday-first day names, the fixed row order of the reindex
(line 153). -/
def weekOrder : List String :=
  ["Monday", "Tuesday", "Wednesday", "Thursday", "Friday", "Saturday", "Sunday"]

/-- Day names indexed by Zeller day number (0 = Saturday). -/
def zellerNames : List String :=
  ["Saturday", "Sunday", "Monday", "Tuesday", "Wednesday", "Thursday", "Friday"]

/-- The Zeller congruence: day-of-week number of a proleptic Gregorian
date, at least 0 and below 7, with 0 = Saturday. -/
def dayIndex (dt : Date) : Nat :=
  let m : Int := if dt.month < 3 then (dt.month : Int) + 12 else (dt.month : Int)
  let y : Int := if dt.month < 3 then dt.year - 1 else dt.year
  (((dt.day : Int) + 13 * (m + 1) / 5 + y + y / 4 - y / 100 + y / 400) % 7).toNat

/-- Day name of a timestamp (the day_name accessor). -/
def dayName (dt : Date) : String := zellerNames.getD (dayIndex dt) "Monday"

/-- The valid_times rows (master line 149, dropna on
`Last Access Date`): the reader rows carrying a parsed last-access
timestamp. -/
def validTimes (reader : DataFrame) : List (List Value) :=
  reader.rows.filter (fun r =>
    match getCell reader.cols r "Last Access Date" with
    | .vDate _ => true
    | _ => false)

/-- The (day-of-week, hour-of-day) bucket of a reader row (lines
150–151); only applied to rows of `validTimes`, whose timestamp is
present. -/
def rowDayHour (cols : List String) (r : List Value) : String × Nat :=
  match getCell cols r "Last Access Date" with
  | .vDate d => (dayName d, d.hour)
  | _ => ("", 0)

/-- The ascending hour columns of the pivot: the distinct hours occurring
among the valid rows. -/
def heatHours (reader : DataFrame) : List Nat :=
  sortedKeys ((validTimes reader).map (fun r => (rowDayHour reader.cols r).2))

/-- One pivot cell: total `Reads` of the valid rows in a (day, hour)
bucket (pivot_table with sum aggregation and fill_value 0). -/
def heatCell (reader : DataFrame) (d : String) (h : Nat) : Int :=
  (((validTimes reader).filter (fun r => decide (rowDayHour reader.cols r = (d, h)))).map
    (fun r => (getCell reader.cols r "Reads").asInt)).sum

/-- The heatmap_data matrix (master lines 152–153): the pivot matrix
reindexed to the fixed Monday-first day order; a day with no valid rows
yields an all-zero row (the reindex inserts missing values, which every
total treats as zero). -/
def heatmapData (reader : DataFrame) : List (String × List (Nat × Int)) :=
  weekOrder.map (fun d => (d, (heatHours reader).map (fun h => (h, heatCell reader d h))))

/-- Grand total of the heatmap matrix. -/
def heatGrandTotal (reader : DataFrame) : Int :=
  ((heatmapData reader).map (fun p => (p.2.map Prod.snd).sum)).sum

/-! ## Predictive Insights tab (master lines 193–207) -/

/-- The Predictive Insights tab: the monthly series is computed from the
full merged view (line 196); with at least 6 observed months the forecast
adapter (`Prophet`, an opaque collaborator passed in as `forecast`) is
asked for 3 future periods (lines 199–203), otherwise the tab renders a
warning and produces no prediction. -/
def predictiveTab (forecast : List (Int × Int) → Nat → List (Int × Int))
    (merged : DataFrame) : Option (List (Int × Int)) :=
  let ts := monthlySeries merged
  if 6 ≤ ts.length then some (forecast ts 3) else none

/-- KPI Total Reads (master line 51, report sheet line 172): the sum of
the `Article Reads` column of a view. -/
def totalReadsKPI (df : DataFrame) : Int :=
  ((colVals df "Article Reads").map Value.asInt).sum

/-- The rows of a view whose `Date` cell holds a parsed timestamp (the
rows that date-based grouping keys on; group-by drops missing keys). -/
def dropNullDate (df : DataFrame) : DataFrame :=
  ⟨df.cols, df.rows.filter (fun r =>
    match getCell df.cols r "Date" with
    | .vDate _ => true
    | _ => false)⟩

/-- The sidebar filter state (master lines 37–39). -/
structure FilterState where
  startD : Date
  endD : Date
  countries : List Value
  industries : List Value

/-- The derived views of one master-dashboard recomputation pass: the two
filtered views feeding the KPI row and most tabs, and the Predictive
Insights inputs/outputs, which are computed from the unfiltered merged
view (line 196). -/
structure MasterView where
  articlesView : DataFrame
  readersView : DataFrame
  forecastInput : List (Int × Int)
  forecastOutput : Option (List (Int × Int))

/-- One recomputation pass of the master dashboard over loaded data. -/
def masterView (forecast : List (Int × Int) → Nat → List (Int × Int))
    (reader merged : DataFrame) (fs : FilterState) : MasterView :=
  { articlesView := filteredArticles merged fs.startD fs.endD
    readersView := filteredReaders reader fs.countries fs.industries
    forecastInput := monthlySeries merged
    forecastOutput := predictiveTab forecast merged }

/-! ## Concrete sample data, used by witnesses and counterexamples -/

/-- A two-row article table over the declared schema: article 1 by author
7 (matched below), article 2 by author 8 (unmatched). -/
def sampleArticles : DataFrame :=
  ⟨articleSchema,
   [[.vInt 1, .vStr "T1", .vInt 7, .vDate ⟨2024, 1, 15, 0⟩, .vInt 10, .vInt 3, .vInt 2, .vStr ""],
    [.vInt 2, .vStr "T2", .vInt 8, .vDate ⟨2024, 2, 1, 0⟩, .vInt 5, .vInt 0, .vInt 0, .vStr ""]]⟩

/-- A one-row author table over the declared schema (author 7 only). -/
def sampleAuthors : DataFrame :=
  ⟨authorSchema, [[.vInt 7, .vStr "Ann", .vInt 100]]⟩

/-- A three-row reader table; the third row has a missing last-access
timestamp. -/
def sampleReaders : DataFrame :=
  ⟨["User Id", "Full Name", "Email", "Company Name", "Country", "Industry", "Position",
    "Reads", "Last Access Date"],
   [[.vInt 1, .vStr "A", .vStr "a@x", .vStr "X", .vStr "US", .vStr "Tech", .vStr "Dev",
     .vInt 4, .vDate ⟨2024, 1, 15, 9⟩],
    [.vInt 2, .vStr "B", .vStr "b@x", .vStr "X", .vStr "UK", .vStr "Fin", .vStr "Dev",
     .vInt 6, .vDate ⟨2024, 1, 16, 9⟩],
    [.vInt 3, .vStr "C", .vStr "c@x", .vStr "X", .vStr "US", .vStr "Tech", .vStr "Dev",
     .vInt 9, .vNull]]⟩

/-- An article table whose `Date` cell is an unparsable raw string. -/
def badDateArticles : DataFrame :=
  ⟨articleSchema,
   [[.vInt 1, .vStr "T1", .vInt 7, .vStr "not a date", .vInt 10, .vInt 3, .vInt 2, .vStr ""]]⟩

/-- A date parsing routine that accepts nothing (any unparsable-input
scenario instantiates the abstract library parser this way). -/
def rejectAll : String → Option Date := fun _ => none

/-- A trivial forecast adapter used to instantiate the opaque collaborator
in witnesses. -/
def zeroForecast : List (Int × Int) → Nat → List (Int × Int) := fun _ _ => []

/-- A merged-shape frame holding six distinct observed months, enough to
cross the forecast threshold. -/
def sixMonthFrame : DataFrame :=
  ⟨["Date", "Article Reads"],
   [[.vDate ⟨2024, 1, 1, 0⟩, .vInt 1], [.vDate ⟨2024, 2, 1, 0⟩, .vInt 2],
    [.vDate ⟨2024, 3, 1, 0⟩, .vInt 3], [.vDate ⟨2024, 4, 1, 0⟩, .vInt 4],
    [.vDate ⟨2024, 5, 1, 0⟩, .vInt 5], [.vDate ⟨2024, 6, 1, 0⟩, .vInt 6]]⟩

/-! ## Helper lemmas -/

theorem sum_map_filter_split {α : Type} (p : α → Bool) (g : α → Int) (xs : List α) :
    ((xs.filter p).map g).sum + ((xs.filter (fun x => !(p x))).map g).sum
      = (xs.map g).sum := by
  induction xs with
  | nil => simp
  | cons a t ih =>
    cases h : p a <;> simp [List.filter_cons, h] <;> omega

theorem sum_groups {α K : Type} [DecidableEq K] (f : α → K) (g : α → Int) :
    ∀ (ks : List K) (xs : List α), (∀ x ∈ xs, f x ∈ ks) → ks.Nodup →
      (ks.map (fun k => ((xs.filter (fun x => decide (f x = k))).map g).sum)).sum
        = (xs.map g).sum := by
  intro ks
  induction ks with
  | nil =>
    intro xs hcov _
    cases xs with
    | nil => simp
    | cons a t => exact absurd (hcov a (List.mem_cons_self a t)) (List.not_mem_nil _)
  | cons k ks ih =>
    intro xs hcov hnd
    have hk : k ∉ ks := (List.nodup_cons.mp hnd).1
    have hnd2 : ks.Nodup := (List.nodup_cons.mp hnd).2
    have hrest : ∀ k2 ∈ ks,
        xs.filter (fun x => decide (f x = k2))
          = (xs.filter (fun x => !(decide (f x = k)))).filter (fun x => decide (f x = k2)) := by
      intro k2 hk2
      have hk2k : k2 ≠ k := fun h => hk (h ▸ hk2)
      rw [List.filter_filter]
      apply List.filter_congr
      intro x _
      by_cases hfx : f x = k2
      · simp [hfx, hk2k]
      · simp [hfx]
    have hcov2 : ∀ x ∈ xs.filter (fun x => !(decide (f x = k))), f x ∈ ks := by
      intro x hx
      have hmem := List.mem_filter.mp hx
      have hne : f x ≠ k := by
        have := hmem.2
        simp only [Bool.not_eq_true', decide_eq_false_iff_not] at this
        exact this
      have := hcov x hmem.1
      cases List.mem_cons.mp this with
      | inl h => exact absurd h hne
      | inr h => exact h
    have hmaps : ks.map (fun k2 => ((xs.filter (fun x => decide (f x = k2))).map g).sum)
        = ks.map (fun k2 =>
            (((xs.filter (fun x => !(decide (f x = k)))).filter
              (fun x => decide (f x = k2))).map g).sum) :=
      List.map_congr_left (fun k2 hk2 => by rw [hrest k2 hk2])
    calc (((k :: ks)).map (fun k2 =>
            ((xs.filter (fun x => decide (f x = k2))).map g).sum)).sum
        = ((xs.filter (fun x => decide (f x = k))).map g).sum
            + (ks.map (fun k2 => ((xs.filter (fun x => decide (f x = k2))).map g).sum)).sum := by
          simp
      _ = ((xs.filter (fun x => decide (f x = k))).map g).sum
            + (ks.map (fun k2 =>
                (((xs.filter (fun x => !(decide (f x = k)))).filter
                  (fun x => decide (f x = k2))).map g).sum)).sum := by
          rw [hmaps]
      _ = ((xs.filter (fun x => decide (f x = k))).map g).sum
            + ((xs.filter (fun x => !(decide (f x = k)))).map g).sum := by
          rw [ih (xs.filter (fun x => !(decide (f x = k)))) hcov2 hnd2]
      _ = (xs.map g).sum := sum_map_filter_split _ g xs

theorem mem_insertKey {K : Type} [LinearOrder K] (k a : K) :
    ∀ l : List K, (a ∈ insertKey k l ↔ a = k ∨ a ∈ l)
  | [] => by simp [insertKey]
  | k2 :: t => by
    by_cases h1 : k < k2
    · rw [insertKey, if_pos h1]
      exact List.mem_cons
    · by_cases h2 : k = k2
      · rw [insertKey, if_neg h1, if_pos h2]
        constructor
        · exact fun h => Or.inr h
        · rintro (rfl | h)
          · exact h2 ▸ List.mem_cons_self k2 t
          · exact h
      · rw [insertKey, if_neg h1, if_neg h2]
        rw [List.mem_cons, List.mem_cons, mem_insertKey k a t]
        tauto

theorem pairwise_insertKey {K : Type} [LinearOrder K] (k : K) :
    ∀ l : List K, l.Pairwise (· < ·) → (insertKey k l).Pairwise (· < ·)
  | [] => by simp [insertKey]
  | k2 :: t => by
    intro h
    have hhd := (List.pairwise_cons.mp h).1
    have htl := (List.pairwise_cons.mp h).2
    by_cases h1 : k < k2
    · rw [insertKey, if_pos h1]
      exact List.pairwise_cons.mpr
        ⟨by
          intro a ha
          cases List.mem_cons.mp ha with
          | inl hh => exact hh ▸ h1
          | inr hh => exact h1.trans (hhd a hh), h⟩
    · by_cases h2 : k = k2
      · rw [insertKey, if_neg h1, if_pos h2]
        exact h
      · rw [insertKey, if_neg h1, if_neg h2]
        have hk2k : k2 < k := lt_of_le_of_ne (not_lt.mp h1) (Ne.symm h2)
        exact List.pairwise_cons.mpr
          ⟨by
            intro a ha
            cases (mem_insertKey k a t).mp ha with
            | inl hh => exact hh ▸ hk2k
            | inr hh => exact hhd a hh,
           pairwise_insertKey k t htl⟩

theorem pairwise_sortedKeys {K : Type} [LinearOrder K] :
    ∀ l : List K, (sortedKeys l).Pairwise (· < ·)
  | [] => by simp [sortedKeys]
  | k :: t => pairwise_insertKey k (sortedKeys t) (pairwise_sortedKeys t)

theorem nodup_sortedKeys {K : Type} [LinearOrder K] (l : List K) :
    (sortedKeys l).Nodup :=
  (pairwise_sortedKeys l).imp ne_of_lt

theorem mem_sortedKeys {K : Type} [LinearOrder K] (a : K) :
    ∀ l : List K, (a ∈ sortedKeys l ↔ a ∈ l)
  | [] => by simp [sortedKeys]
  | k :: t => by
    rw [sortedKeys, mem_insertKey, mem_sortedKeys a t, List.mem_cons]

theorem sortedKeys_eq_self {K : Type} [LinearOrder K] :
    ∀ l : List K, l.Pairwise (· < ·) → sortedKeys l = l
  | [] => by intro _; rfl
  | k :: t => by
    intro h
    have htl := (List.pairwise_cons.mp h).2
    rw [sortedKeys, sortedKeys_eq_self t htl]
    cases t with
    | nil => rfl
    | cons k2 t2 =>
      have hk : k < k2 := (List.pairwise_cons.mp h).1 k2 (List.mem_cons_self k2 t2)
      rw [insertKey, if_pos hk]

theorem sortedKeys_idem {K : Type} [LinearOrder K] (l : List K) :
    sortedKeys (sortedKeys l) = sortedKeys l :=
  sortedKeys_eq_self (sortedKeys l) (pairwise_sortedKeys l)

theorem filter_selfmap_of_not_mem {K : Type} [DecidableEq K] (S : K → Int) (k0 : K) :
    ∀ ks : List K, k0 ∉ ks →
      (ks.map (fun k => (k, S k))).filter (fun p => decide (p.1 = k0)) = []
  | [] => by intro _; rfl
  | k :: t => by
    intro hk0
    have h1 : k ≠ k0 := fun h => hk0 (h ▸ List.mem_cons_self k t)
    simp only [List.map_cons, List.filter_cons, decide_eq_true_eq]
    rw [if_neg (by simpa using h1)]
    exact filter_selfmap_of_not_mem S k0 t (fun h => hk0 (List.mem_cons_of_mem k h))

theorem filter_selfmap_of_mem {K : Type} [DecidableEq K] (S : K → Int) (k0 : K) :
    ∀ ks : List K, ks.Nodup → k0 ∈ ks →
      (ks.map (fun k => (k, S k))).filter (fun p => decide (p.1 = k0)) = [(k0, S k0)]
  | [] => by intro _ h; exact absurd h (List.not_mem_nil k0)
  | k :: t => by
    intro hnd hk0
    have hkt : k ∉ t := (List.nodup_cons.mp hnd).1
    simp only [List.map_cons, List.filter_cons, decide_eq_true_eq]
    by_cases h : k = k0
    · rw [if_pos (by simpa using h)]
      subst h
      rw [filter_selfmap_of_not_mem S k t hkt]
    · rw [if_neg (by simpa using h)]
      have hk0t : k0 ∈ t := by
        cases List.mem_cons.mp hk0 with
        | inl hh => exact absurd hh.symm h
        | inr hh => exact hh
      exact filter_selfmap_of_mem S k0 t (List.nodup_cons.mp hnd).2 hk0t

theorem groupTotal_selfmap {K : Type} [DecidableEq K] (S : K → Int) (k0 : K)
    (ks : List K) (hnd : ks.Nodup) (hk0 : k0 ∈ ks) :
    groupTotal (ks.map (fun k => (k, S k))) k0 = S k0 := by
  rw [groupTotal, filter_selfmap_of_mem S k0 ks hnd hk0]
  simp

theorem monthKey_monthStart (k : Int) : monthKey (monthStart k) = k := by
  simp only [monthKey, monthStart]
  push_cast
  omega

theorem getCell_month_date (a b : Value) :
    getCell ["Date", "Article Reads"] [a, b] "Date" = a := rfl

theorem getCell_month_reads (a b : Value) :
    getCell ["Date", "Article Reads"] [a, b] "Article Reads" = b := rfl

theorem monthPairOfRow_render (k s : Int) :
    monthPairOfRow ["Date", "Article Reads"]
      [Value.vDate (monthStart k), Value.vInt s] = some (k, s) := by
  rw [show monthPairOfRow ["Date", "Article Reads"]
        [Value.vDate (monthStart k), Value.vInt s]
      = some (monthKey (monthStart k), s) from rfl,
    monthKey_monthStart]

theorem monthPairs_readsOverTime (df : DataFrame) :
    monthPairs (readsOverTime df) = monthlySeries df := by
  rw [readsOverTime, monthPairs]
  show ((monthlySeries df).map
      (fun p => [Value.vDate (monthStart p.1), Value.vInt p.2])).filterMap
      (monthPairOfRow ["Date", "Article Reads"]) = monthlySeries df
  rw [List.filterMap_map]
  have hcomp : (monthPairOfRow ["Date", "Article Reads"] ∘
      fun p : Int × Int => [Value.vDate (monthStart p.1), Value.vInt p.2]) = some :=
    funext fun p => monthPairOfRow_render p.1 p.2
  rw [hcomp, List.filterMap_some]

theorem monthlySeries_readsOverTime (df : DataFrame) :
    monthlySeries (readsOverTime df) = monthlySeries df := by
  have h1 : monthlySeries (readsOverTime df)
      = (sortedKeys ((monthlySeries df).map Prod.fst)).map
          (fun k => (k, groupTotal (monthlySeries df) k)) := by
    rw [show monthlySeries (readsOverTime df)
        = (sortedKeys ((monthPairs (readsOverTime df)).map Prod.fst)).map
            (fun k => (k, groupTotal (monthPairs (readsOverTime df)) k)) from rfl]
    rw [monthPairs_readsOverTime]
  rw [h1]
  have h2 : monthlySeries df
      = (sortedKeys ((monthPairs df).map Prod.fst)).map
          (fun k => (k, groupTotal (monthPairs df) k)) := rfl
  rw [h2, List.map_map]
  have h3 : (Prod.fst ∘ fun k : Int => (k, groupTotal (monthPairs df) k)) = id := rfl
  rw [h3, List.map_id, sortedKeys_idem]
  apply List.map_congr_left
  intro k hk
  rw [groupTotal_selfmap (fun k2 => groupTotal (monthPairs df) k2) k
    (sortedKeys ((monthPairs df).map Prod.fst)) (nodup_sortedKeys _) hk]

theorem mem_monthlySeries_fst (df : DataFrame) (k : Int) :
    (∃ p ∈ monthlySeries df, p.1 = k)
      ↔ ∃ r ∈ df.rows, ∃ d : Date,
          getCell df.cols r "Date" = Value.vDate d ∧ monthKey d = k := by
  have h2 : monthlySeries df
      = (sortedKeys ((monthPairs df).map Prod.fst)).map
          (fun k2 => (k2, groupTotal (monthPairs df) k2)) := rfl
  constructor
  · rintro ⟨p, hp, hpk⟩
    rw [h2] at hp
    obtain ⟨k0, hk0, hpe⟩ := List.mem_map.mp hp
    have hk0k : k0 = k := by rw [← hpk, ← hpe]
    subst hk0k
    have hk0p : k0 ∈ (monthPairs df).map Prod.fst := (mem_sortedKeys k0 _).mp hk0
    obtain ⟨pr, hpr, hprk⟩ := List.mem_map.mp hk0p
    obtain ⟨r, hr, hrp⟩ := List.mem_filterMap.mp hpr
    cases hg : getCell df.cols r "Date" with
    | vDate d =>
      refine ⟨r, hr, d, hg, ?_⟩
      have : monthPairOfRow df.cols r
          = some (monthKey d, (getCell df.cols r "Article Reads").asInt) := by
        simp only [monthPairOfRow, hg]
      rw [this] at hrp
      have := Option.some.inj hrp
      rw [← hprk, ← this]
    | vStr s =>
      simp only [monthPairOfRow, hg] at hrp
      exact Option.noConfusion hrp
    | vInt n =>
      simp only [monthPairOfRow, hg] at hrp
      exact Option.noConfusion hrp
    | vNull =>
      simp only [monthPairOfRow, hg] at hrp
      exact Option.noConfusion hrp
  · rintro ⟨r, hr, d, hgd, hmk⟩
    have hsome : monthPairOfRow df.cols r
        = some (monthKey d, (getCell df.cols r "Article Reads").asInt) := by
      simp only [monthPairOfRow, hgd]
    have hpr : (monthKey d, (getCell df.cols r "Article Reads").asInt) ∈ monthPairs df :=
      List.mem_filterMap.mpr ⟨r, hr, hsome⟩
    have hkmem : k ∈ (monthPairs df).map Prod.fst := by
      rw [← hmk]
      exact List.mem_map.mpr ⟨_, hpr, rfl⟩
    have hks : k ∈ sortedKeys ((monthPairs df).map Prod.fst) :=
      (mem_sortedKeys k _).mpr hkmem
    refine ⟨(k, groupTotal (monthPairs df) k), ?_, rfl⟩
    rw [h2]
    exact List.mem_map.mpr ⟨k, hks, rfl⟩

/-- Claim C7: the monthly time-bucketed sum is idempotent — re-applying
the calendar-month bucketed sum to its own output reproduces that output
exactly — and a month is present in the series exactly when some input
row carries a parsed date in that month (months with zero rows are
omitted, not zero-filled). -/
theorem claim_C7_monthly_bucket_sum_idempotent (df : DataFrame) :
    readsOverTime (readsOverTime df) = readsOverTime df ∧
    ∀ k : Int, (∃ p ∈ monthlySeries df, p.1 = k)
      ↔ ∃ r ∈ df.rows, ∃ d : Date,
          getCell df.cols r "Date" = Value.vDate d ∧ monthKey d = k := by
  constructor
  · have h : readsOverTime (readsOverTime df)
        = ⟨["Date", "Article Reads"],
           (monthlySeries (readsOverTime df)).map
             (fun p => [Value.vDate (monthStart p.1), Value.vInt p.2])⟩ := rfl
    rw [h, monthlySeries_readsOverTime]
    rfl
  · exact mem_monthlySeries_fst df

theorem dayIndex_lt (dt : Date) : dayIndex dt < 7 := by
  rw [dayIndex]
  by_cases h : dt.month < 3 <;> simp only [h, if_true, if_false, reduceIte] <;> omega

theorem dayName_mem_weekOrder (dt : Date) : dayName dt ∈ weekOrder := by
  rw [dayName]
  have hall : ∀ i, i < 7 → zellerNames.getD i "Monday" ∈ weekOrder := by decide
  exact hall _ (dayIndex_lt dt)

theorem validTimes_date (reader : DataFrame) (r : List Value) (hr : r ∈ validTimes reader) :
    ∃ d : Date, getCell reader.cols r "Last Access Date" = Value.vDate d := by
  have hmem := List.mem_filter.mp hr
  cases hg : getCell reader.cols r "Last Access Date" with
  | vDate d => exact ⟨d, rfl⟩
  | vStr s => rw [hg] at hmem; exact Bool.noConfusion hmem.2
  | vInt n => rw [hg] at hmem; exact Bool.noConfusion hmem.2
  | vNull => rw [hg] at hmem; exact Bool.noConfusion hmem.2

theorem rowDayHour_fst_mem (reader : DataFrame) (r : List Value)
    (hr : r ∈ validTimes reader) : (rowDayHour reader.cols r).1 ∈ weekOrder := by
  obtain ⟨d, hd⟩ := validTimes_date reader r hr
  rw [rowDayHour, hd]
  exact dayName_mem_weekOrder d

theorem heatCell_split (reader : DataFrame) (d : String) (h : Nat) :
    heatCell reader d h =
      ((((validTimes reader).filter
          (fun r => decide ((rowDayHour reader.cols r).1 = d))).filter
          (fun r => decide ((rowDayHour reader.cols r).2 = h))).map
        (fun r => (getCell reader.cols r "Reads").asInt)).sum := by
  rw [heatCell, List.filter_filter]
  have hpt : ∀ r ∈ validTimes reader,
      (decide (rowDayHour reader.cols r = (d, h)))
        = (decide ((rowDayHour reader.cols r).2 = h)
            && decide ((rowDayHour reader.cols r).1 = d)) := by
    intro r _
    rcases hx : rowDayHour reader.cols r with ⟨a, b⟩
    simp only [Prod.mk.injEq, Bool.decide_and]
    exact Bool.and_comm _ _
  rw [List.filter_congr hpt]

theorem heat_day_sum (reader : DataFrame) (d : String) :
    ((heatHours reader).map (fun h => heatCell reader d h)).sum
      = (((validTimes reader).filter
            (fun r => decide ((rowDayHour reader.cols r).1 = d))).map
          (fun r => (getCell reader.cols r "Reads").asInt)).sum := by
  have h1 : (heatHours reader).map (fun h => heatCell reader d h)
      = (heatHours reader).map (fun h =>
          ((((validTimes reader).filter
              (fun r => decide ((rowDayHour reader.cols r).1 = d))).filter
              (fun r => decide ((rowDayHour reader.cols r).2 = h))).map
            (fun r => (getCell reader.cols r "Reads").asInt)).sum) :=
    List.map_congr_left (fun h _ => heatCell_split reader d h)
  rw [h1]
  apply sum_groups (fun r => (rowDayHour reader.cols r).2)
    (fun r => (getCell reader.cols r "Reads").asInt) (heatHours reader)
  · intro r hrm
    have hrv : r ∈ validTimes reader := (List.mem_filter.mp hrm).1
    rw [heatHours, mem_sortedKeys]
    exact List.mem_map.mpr ⟨r, hrv, rfl⟩
  · exact nodup_sortedKeys _

/-- Claim C6: mass conservation of the engagement heatmap — the grand
total of the pivot-sum matrix (day-of-week by hour-of-day, summing the
read counts, missing combinations filled to zero, days reindexed
Monday-first) equals the sum of the `Reads` column over exactly the
reader rows whose last-access timestamp is non-null. -/
theorem claim_C6_heatmap_mass_conservation (reader : DataFrame) :
    heatGrandTotal reader
      = ((validTimes reader).map (fun r => (getCell reader.cols r "Reads").asInt)).sum := by
  rw [heatGrandTotal, heatmapData, List.map_map]
  have h1 : ((fun p : String × List (Nat × Int) => (p.2.map Prod.snd).sum) ∘
        fun d => (d, (heatHours reader).map (fun h => (h, heatCell reader d h))))
      = fun d => (((heatHours reader).map (fun h => (h, heatCell reader d h))).map
          Prod.snd).sum := rfl
  rw [h1]
  have h2 : (fun d => (((heatHours reader).map
        (fun h => (h, heatCell reader d h))).map Prod.snd).sum)
      = fun d => ((heatHours reader).map (fun h => heatCell reader d h)).sum := by
    funext d
    rw [List.map_map]
    rfl
  rw [h2]
  have h3 : weekOrder.map (fun d => ((heatHours reader).map
        (fun h => heatCell reader d h)).sum)
      = weekOrder.map (fun d => (((validTimes reader).filter
            (fun r => decide ((rowDayHour reader.cols r).1 = d))).map
          (fun r => (getCell reader.cols r "Reads").asInt)).sum) :=
    List.map_congr_left (fun d _ => heat_day_sum reader d)
  rw [h3]
  apply sum_groups (fun r => (rowDayHour reader.cols r).1)
    (fun r => (getCell reader.cols r "Reads").asInt) weekOrder
  · exact fun r hr => rowDayHour_fst_mem reader r hr
  · decide

/-- Claim C4: a reversed date interval (start strictly after end) makes
the Filter Engine return an empty filtered article view, and an empty
allowed country set or an empty allowed industry set makes the filtered
reader view empty — an empty allowed-set means allow none, not allow
all. -/
theorem claim_C4_empty_filter_policies (merged reader : DataFrame) (s e : Date)
    (cs inds : List Value) (hrev : Date.lt e s = true) :
    (filteredArticles merged s e).rows = [] ∧
    (filteredReaders reader [] inds).rows = [] ∧
    (filteredReaders reader cs []).rows = [] := by
  have hes : e.key < s.key := of_decide_eq_true hrev
  refine ⟨?_, ?_, ?_⟩
  · apply List.filter_eq_nil_iff.mpr
    intro r _
    intro hcontra
    rw [Bool.and_eq_true] at hcontra
    cases hg : getCell merged.cols r "Date" with
    | vDate d =>
      rw [hg] at hcontra
      have h1 : s.key ≤ d.key := of_decide_eq_true hcontra.1
      have h2 : d.key ≤ e.key := of_decide_eq_true hcontra.2
      omega
    | vStr s2 => rw [hg] at hcontra; exact Bool.noConfusion hcontra.1
    | vInt n => rw [hg] at hcontra; exact Bool.noConfusion hcontra.1
    | vNull => rw [hg] at hcontra; exact Bool.noConfusion hcontra.1
  · apply List.filter_eq_nil_iff.mpr
    intro r _
    simp
  · apply List.filter_eq_nil_iff.mpr
    intro r _
    simp

/-- Witness for claim C4 at a concrete reversed interval over the sample
data. -/
theorem claim_C4_witness :
    (filteredArticles (joiner sampleArticles sampleAuthors)
        ⟨2024, 3, 1, 0⟩ ⟨2024, 1, 1, 0⟩).rows = [] ∧
    (filteredReaders sampleReaders [] [Value.vStr "Tech"]).rows = [] ∧
    (filteredReaders sampleReaders [Value.vStr "US"] []).rows = [] :=
  claim_C4_empty_filter_policies (joiner sampleArticles sampleAuthors) sampleReaders
    ⟨2024, 3, 1, 0⟩ ⟨2024, 1, 1, 0⟩ [Value.vStr "US"] [Value.vStr "Tech"] (by decide)

/-- Claim C10: for every date interval, every row of the filtered article
view carries a parsed (non-null) publication date, because the missing
marker satisfies neither bound of the range comparison. -/
theorem claim_C10_filtered_dates_nonnull (merged : DataFrame) (s e : Date) :
    (∀ r ∈ (filteredArticles merged s e).rows,
      ∃ d : Date, getCell merged.cols r "Date" = Value.vDate d) ∧
    dateGeB Value.vNull s = false ∧ dateLeB Value.vNull e = false := by
  refine ⟨?_, rfl, rfl⟩
  intro r hr
  obtain ⟨hrm, hpred⟩ := List.mem_filter.mp hr
  rw [Bool.and_eq_true] at hpred
  cases hg : getCell merged.cols r "Date" with
  | vDate d => exact ⟨d, rfl⟩
  | vStr s2 => rw [hg] at hpred; exact Bool.noConfusion hpred.1
  | vInt n => rw [hg] at hpred; exact Bool.noConfusion hpred.1
  | vNull => rw [hg] at hpred; exact Bool.noConfusion hpred.1

/-- Witness for claim C10: the matched sample row lies in a concrete
filtered view and its date cell is a parsed timestamp. -/
theorem claim_C10_witness :
    ∃ d : Date,
      getCell (joiner sampleArticles sampleAuthors).cols
        [Value.vInt 1, Value.vStr "T1", Value.vInt 7, Value.vDate ⟨2024, 1, 15, 0⟩,
         Value.vInt 10, Value.vInt 3, Value.vInt 2, Value.vStr "",
         Value.vStr "Ann", Value.vInt 100] "Date" = Value.vDate d :=
  (claim_C10_filtered_dates_nonnull (joiner sampleArticles sampleAuthors)
      ⟨2024, 1, 1, 0⟩ ⟨2024, 12, 31, 23⟩).1
    [Value.vInt 1, Value.vStr "T1", Value.vInt 7, Value.vDate ⟨2024, 1, 15, 0⟩,
     Value.vInt 10, Value.vInt 3, Value.vInt 2, Value.vStr "",
     Value.vStr "Ann", Value.vInt 100] (by decide)

/-- Claim C8: the Predictive Insights tab skips the forecast adapter
below 6 observed monthly points (no prediction output, no exception) and
invokes it for 3 future periods at 6 or more points. -/
theorem claim_C8_forecast_threshold (merged : DataFrame)
    (forecast : List (Int × Int) → Nat → List (Int × Int)) :
    ((monthlySeries merged).length < 6 → predictiveTab forecast merged = none) ∧
    (6 ≤ (monthlySeries merged).length →
      predictiveTab forecast merged = some (forecast (monthlySeries merged) 3)) := by
  constructor
  · intro h
    rw [predictiveTab]
    exact if_neg (by omega)
  · intro h
    rw [predictiveTab]
    exact if_pos h

/-- Witness for claim C8: the two-month sample merged view is skipped,
the six-month frame is forecast for 3 periods. -/
theorem claim_C8_witness :
    predictiveTab zeroForecast (joiner sampleArticles sampleAuthors) = none ∧
    predictiveTab zeroForecast sixMonthFrame
      = some (zeroForecast (monthlySeries sixMonthFrame) 3) :=
  ⟨(claim_C8_forecast_threshold (joiner sampleArticles sampleAuthors) zeroForecast).1
      (by decide),
   (claim_C8_forecast_threshold sixMonthFrame zeroForecast).2 (by decide)⟩

/-- Claim C9: the forecast input series and the forecast output of a
master-dashboard recomputation pass are computed from the full merged
view, so they are identical under any two filter states over the same
loaded data. -/
theorem claim_C9_forecast_filter_independent
    (forecast : List (Int × Int) → Nat → List (Int × Int))
    (reader merged : DataFrame) (fs1 fs2 : FilterState) :
    (masterView forecast reader merged fs1).forecastInput
        = (masterView forecast reader merged fs2).forecastInput ∧
    (masterView forecast reader merged fs1).forecastOutput
        = (masterView forecast reader merged fs2).forecastOutput :=
  ⟨rfl, rfl⟩

/-- Claim C3 (defect exhibit): selecting the extremal row from an empty
filtered article view does fail (the embedded idxmax yields no result),
but the KPI call sites of the presentation layer (master lines 52–53)
invoke it with no emptiness guard — this theorem evaluates those
unguarded call sites at a concrete failing filter state (a reversed date
range, which claim C4 shows empties the view). -/
theorem claim_C3_unguarded_extremal_on_empty :
    (filteredArticles (joiner sampleArticles sampleAuthors)
        ⟨2024, 3, 1, 0⟩ ⟨2024, 1, 1, 0⟩).rows = [] ∧
    topAuthorKPI (filteredArticles (joiner sampleArticles sampleAuthors)
        ⟨2024, 3, 1, 0⟩ ⟨2024, 1, 1, 0⟩) = none ∧
    topArticleKPI (filteredArticles (joiner sampleArticles sampleAuthors)
        ⟨2024, 3, 1, 0⟩ ⟨2024, 1, 1, 0⟩) = none := by
  decide

theorem filterMap_monthPair_filter (cols : List String) :
    ∀ rows : List (List Value),
      (rows.filter (fun r =>
        match getCell cols r "Date" with
        | Value.vDate _ => true
        | _ => false)).filterMap (monthPairOfRow cols)
        = rows.filterMap (monthPairOfRow cols)
  | [] => rfl
  | r :: t => by
    cases hg : getCell cols r "Date" with
    | vDate d =>
      rw [List.filter_cons_of_pos (by simp [hg])]
      cases hm : monthPairOfRow cols r with
      | none =>
        rw [List.filterMap_cons_none hm, List.filterMap_cons_none hm]
        exact filterMap_monthPair_filter cols t
      | some p =>
        rw [List.filterMap_cons_some hm, List.filterMap_cons_some hm,
          filterMap_monthPair_filter cols t]
    | vStr s =>
      rw [List.filter_cons_of_neg (by simp [hg])]
      rw [List.filterMap_cons_none (by simp [monthPairOfRow, hg])]
      exact filterMap_monthPair_filter cols t
    | vInt n =>
      rw [List.filter_cons_of_neg (by simp [hg])]
      rw [List.filterMap_cons_none (by simp [monthPairOfRow, hg])]
      exact filterMap_monthPair_filter cols t
    | vNull =>
      rw [List.filter_cons_of_neg (by simp [hg])]
      rw [List.filterMap_cons_none (by simp [monthPairOfRow, hg])]
      exact filterMap_monthPair_filter cols t

theorem readsOverTime_dropNullDate (df : DataFrame) :
    readsOverTime df = readsOverTime (dropNullDate df) := by
  have h : monthPairs (dropNullDate df) = monthPairs df :=
    filterMap_monthPair_filter df.cols df.rows
  have h2 : monthlySeries (dropNullDate df) = monthlySeries df := by
    rw [monthlySeries, monthlySeries, h]
  rw [readsOverTime, readsOverTime, h2]

/-- Counterexample for claim C5: an app-dashboard Loader run (strict
date conversion, app line 22) over an article table with one unparsable
date value fails — contradicting the claim that in every Loader run an
unparsable date value never causes the load to fail. -/
theorem claim_C5_counterexample :
    appLoadData rejectAll sampleReaders badDateArticles sampleAuthors = none := by
  decide

/-- Claim C5 (amended to the master dashboard, whose Loader uses the
coerce error mode): the master load applies the coercing conversion to
both designated date columns, an unparsable value becomes the missing
marker instead of raising, and null-date rows are excluded from
date-based grouping — dropping them leaves the monthly bucketed sum
unchanged. -/
theorem claim_C5_master_loader_coerces (parse : String → Option Date) (s : String)
    (hs : parse s = none) :
    parseCell parse (Value.vStr s) = Value.vNull ∧
    (∀ reader article author : DataFrame,
      masterLoadData parse reader article author
        = (mapCol (parseCell parse) reader "Last Access Date",
           joiner (mapCol (parseCell parse) article "Date") author)) ∧
    ∀ df : DataFrame, readsOverTime df = readsOverTime (dropNullDate df) := by
  refine ⟨?_, fun _ _ _ => rfl, readsOverTime_dropNullDate⟩
  simp only [parseCell, hs]

/-- Witness for amended claim C5 at the concrete rejecting parser and the
sample merged view. -/
theorem claim_C5_witness :
    parseCell rejectAll (Value.vStr "not a date") = Value.vNull ∧
    readsOverTime (joiner sampleArticles sampleAuthors)
      = readsOverTime (dropNullDate (joiner sampleArticles sampleAuthors)) := by
  have h := claim_C5_master_loader_coerces rejectAll "not a date" rfl
  exact ⟨h.1, h.2.2 (joiner sampleArticles sampleAuthors)⟩

theorem filter_nodup_map_le_one {α K : Type} [DecidableEq K] (f : α → K) (v : K) :
    ∀ l : List α, (l.map f).Nodup →
      (l.filter (fun x => decide (f x = v))).length ≤ 1
  | [] => by intro _; simp
  | a :: t => by
    intro hnd
    rw [List.map_cons, List.nodup_cons] at hnd
    by_cases h : f a = v
    · rw [List.filter_cons_of_pos (by simp [h])]
      have ht : t.filter (fun x => decide (f x = v)) = [] := by
        apply List.filter_eq_nil_iff.mpr
        intro x hx hc
        have hfx : f x = v := of_decide_eq_true hc
        exact hnd.1 (List.mem_map.mpr ⟨x, hx, by rw [hfx, h]⟩)
      rw [ht]
      simp
    · rw [List.filter_cons_of_neg (by simp [h])]
      exact filter_nodup_map_le_one f v t hnd.2

theorem emitRows_length_one (leftCols : List String) (author : DataFrame)
    (key : String) (lrow : List Value)
    (huniq : (author.rows.map (fun rr => getCell author.cols rr key)).Nodup) :
    (emitRows leftCols author key lrow).length = 1 := by
  have hle : (matchRows leftCols author key lrow).length ≤ 1 :=
    filter_nodup_map_le_one (fun rr => getCell author.cols rr key) _ author.rows huniq
  simp only [emitRows]
  by_cases he : (matchRows leftCols author key lrow).isEmpty
  · rw [if_pos he]
    rfl
  · rw [if_neg he, List.length_map]
    have hne : matchRows leftCols author key lrow ≠ [] := by
      intro hnil
      rw [hnil] at he
      exact he rfl
    have hpos : 0 < (matchRows leftCols author key lrow).length :=
      List.length_pos.mpr hne
    omega

theorem joiner_rows_flatMap (article author : DataFrame) :
    (joiner article author).rows
      = article.rows.flatMap (emitRows article.cols author "Author Id") := rfl

/-- Claim C2: for valid inputs (distinct author identifiers in the author
table), the Joiner output has exactly as many rows as the article table —
each article row appears exactly once — and an article row with no
matching author identifier is emitted padded with the missing marker in
every author column. -/
theorem claim_C2_left_join_cardinality (article author : DataFrame)
    (huniq : (author.rows.map (fun rr => getCell author.cols rr "Author Id")).Nodup) :
    (joiner article author).rows.length = article.rows.length ∧
    ∀ lrow ∈ article.rows,
      (∀ rrow ∈ author.rows,
        getCell author.cols rrow "Author Id" ≠ getCell article.cols lrow "Author Id") →
      lrow ++ List.replicate
          ((author.cols.filter (fun c => !(c == "Author Id"))).length) Value.vNull
        ∈ (joiner article author).rows := by
  constructor
  · rw [joiner_rows_flatMap]
    induction article.rows with
    | nil => rfl
    | cons a t ih =>
      rw [List.flatMap_cons, List.length_append,
        emitRows_length_one article.cols author "Author Id" a huniq, ih,
        List.length_cons]
      omega
  · intro lrow hlrow hnomatch
    rw [joiner_rows_flatMap]
    apply List.mem_flatMap.mpr
    refine ⟨lrow, hlrow, ?_⟩
    have hms : matchRows article.cols author "Author Id" lrow = [] := by
      apply List.filter_eq_nil_iff.mpr
      intro rr hrr hc
      exact hnomatch rr hrr (of_decide_eq_true hc)
    simp only [emitRows, hms]
    exact List.mem_singleton.mpr rfl

/-- Witness for claim C2 on the sample tables: the author identifiers are
distinct, the joined view has the article row count, and the unmatched
second article row is emitted null-padded. -/
theorem claim_C2_witness :
    (joiner sampleArticles sampleAuthors).rows.length = sampleArticles.rows.length ∧
    [Value.vInt 2, Value.vStr "T2", Value.vInt 8, Value.vDate ⟨2024, 2, 1, 0⟩,
     Value.vInt 5, Value.vInt 0, Value.vInt 0, Value.vStr ""]
      ++ List.replicate
          ((sampleAuthors.cols.filter (fun c => !(c == "Author Id"))).length) Value.vNull
      ∈ (joiner sampleArticles sampleAuthors).rows := by
  have h := claim_C2_left_join_cardinality sampleArticles sampleAuthors (by decide)
  exact ⟨h.1,
    h.2 [Value.vInt 2, Value.vStr "T2", Value.vInt 8, Value.vDate ⟨2024, 2, 1, 0⟩,
      Value.vInt 5, Value.vInt 0, Value.vInt 0, Value.vStr ""] (by decide) (by decide)⟩

theorem joiner_cols_schema (arows aurows : List (List Value)) :
    (joiner ⟨articleSchema, arows⟩ ⟨authorSchema, aurows⟩).cols = mergedSchema := rfl

theorem getCell_mergedSchema_reads (row : List Value) :
    getCell mergedSchema row "Article Reads" = row.getD 4 Value.vNull := rfl

theorem getCell_articleSchema_reads (row : List Value) :
    getCell articleSchema row "Reads" = row.getD 4 Value.vNull := rfl

theorem emit_shape {leftCols : List String} {right : DataFrame} {key : String}
    {lrow mrow : List Value} (hm : mrow ∈ emitRows leftCols right key lrow) :
    ∃ rest, mrow = lrow ++ rest := by
  simp only [emitRows] at hm
  by_cases he : (matchRows leftCols right key lrow).isEmpty
  · rw [if_pos he] at hm
    exact ⟨_, List.mem_singleton.mp hm⟩
  · rw [if_neg he] at hm
    obtain ⟨rr, _, heq⟩ := List.mem_map.mp hm
    exact ⟨_, heq.symm⟩

/-- Claim C1: over the declared schemas — which carry the read-count
collision the canonical rename resolves — the Joiner output contains the
canonical columns `Article Reads` and `Author Name`; the `Article Reads`
cell of every merged row is the `Reads` cell of the article row it
extends; and the downstream total-reads aggregation, which reads the
label `Article Reads`, recovers exactly the article-table read counts. -/
theorem claim_C1_canonical_columns (article author : DataFrame)
    (hac : article.cols = articleSchema) (hauc : author.cols = authorSchema)
    (hwf : ∀ r ∈ article.rows, r.length = articleSchema.length)
    (huniq : (author.rows.map
      (fun rr => getCell author.cols rr "Author Id")).Nodup) :
    "Article Reads" ∈ (joiner article author).cols ∧
    "Author Name" ∈ (joiner article author).cols ∧
    (∀ mrow ∈ (joiner article author).rows,
      mrow.take 8 ∈ article.rows ∧
      getCell (joiner article author).cols mrow "Article Reads"
        = getCell articleSchema (mrow.take 8) "Reads") ∧
    totalReadsKPI (joiner article author)
      = ((colVals article "Reads").map Value.asInt).sum := by
  cases article with
  | mk acols arows =>
    cases author with
    | mk aucols aurows =>
      have hac2 : acols = articleSchema := hac
      have hauc2 : aucols = authorSchema := hauc
      subst hac2
      subst hauc2
      rw [joiner_cols_schema]
      refine ⟨by decide, by decide, ?_, ?_⟩
      · intro mrow hmrow
        rw [joiner_rows_flatMap] at hmrow
        obtain ⟨lrow, hlrow, hemit⟩ := List.mem_flatMap.mp hmrow
        obtain ⟨rest, hrest⟩ := emit_shape hemit
        have hlen : lrow.length = 8 := hwf lrow hlrow
        have htake : mrow.take 8 = lrow := by
          rw [hrest]
          exact List.take_left' hlen
        refine ⟨htake ▸ hlrow, ?_⟩
        rw [getCell_mergedSchema_reads, htake, getCell_articleSchema_reads, hrest,
          List.getD_append _ _ _ _ (by omega)]
      · rw [totalReadsKPI, colVals, colVals, joiner_rows_flatMap, joiner_cols_schema]
        show (((arows.flatMap
            (emitRows articleSchema ⟨authorSchema, aurows⟩ "Author Id")).map
              (fun r => getCell mergedSchema r "Article Reads")).map Value.asInt).sum
          = ((arows.map (fun r => getCell articleSchema r "Reads")).map Value.asInt).sum
        induction arows with
        | nil => rfl
        | cons a t ih =>
          rw [List.flatMap_cons, List.map_append, List.map_append, List.sum_append,
            List.map_cons, List.map_cons, List.sum_cons]
          have hsingle := emitRows_length_one articleSchema
            ⟨authorSchema, aurows⟩ "Author Id" a huniq
          obtain ⟨m, hm⟩ := List.length_eq_one.mp hsingle
          have hmem : m ∈ emitRows articleSchema ⟨authorSchema, aurows⟩ "Author Id" a := by
            rw [hm]
            exact List.mem_singleton.mpr rfl
          obtain ⟨rest, hrest⟩ := emit_shape hmem
          have hlena : a.length = 8 := hwf a (List.mem_cons_self a t)
          have hcell : getCell mergedSchema m "Article Reads"
              = getCell articleSchema a "Reads" := by
            rw [getCell_mergedSchema_reads, getCell_articleSchema_reads, hrest,
              List.getD_append _ _ _ _ (by omega)]
          rw [hm, List.map_cons, List.map_nil, List.map_cons, List.map_nil,
            List.sum_cons, List.sum_nil, hcell,
            ih rfl (fun r hr => hwf r (List.mem_cons_of_mem a hr))]
          omega

/-- Witness for claim C1 on the sample tables. -/
theorem claim_C1_witness :
    "Article Reads" ∈ (joiner sampleArticles sampleAuthors).cols ∧
    "Author Name" ∈ (joiner sampleArticles sampleAuthors).cols ∧
    totalReadsKPI (joiner sampleArticles sampleAuthors)
      = ((colVals sampleArticles "Reads").map Value.asInt).sum := by
  have h := claim_C1_canonical_columns sampleArticles sampleAuthors rfl rfl
    (by decide) (by decide)
  exact ⟨h.1, h.2.1, h.2.2.2⟩

end Mondaq
